import Mathlib

/-!
Verification development for the encrypted-HLS streaming repository.

The JavaScript/TypeScript sources are shallowly embedded:
a JS string is modelled as a `List Char` (the manifests are ASCII),
a byte buffer (`Buffer` / `Uint8Array`) as a `List Nat` of byte values,
and throwing code as `Except`/`Option`-returning functions.
The libsodium primitive `crypto_aead_chacha20poly1305_ietf_*` called by
`src/server/encryption.js` and by the loader is embedded as the concrete
RFC 8439 ChaCha20-Poly1305 construction that libsodium implements.
-/

set_option maxRecDepth 10000

abbrev Str := List Char

abbrev Bytes := List Nat

/-- Coerce a Lean string literal to the JS-string model. -/
def str (s : String) : Str := s.data

/-- JS `String.prototype.split` with a single-character separator:
`"a:b".split(':') = ["a","b"]`, `"".split(':') = [""]`. -/
def jsSplit (sep : Char) : Str → List Str
  | [] => [[]]
  | c :: cs =>
    if c = sep then [] :: jsSplit sep cs
    else
      match jsSplit sep cs with
      | [] => [[c]]
      | w :: ws => (c :: w) :: ws

/-- JS `Array.prototype.join` with a string separator. -/
def jsJoin (sep : Str) : List Str → Str
  | [] => []
  | [l] => l
  | l :: l2 :: ls => l ++ sep ++ jsJoin sep (l2 :: ls)

/-- The ASCII whitespace characters stripped by JS `trim` (the unicode
whitespace beyond ASCII never occurs in the manifests modelled here). -/
def isJsWs (c : Char) : Bool :=
  c == ' ' || c == '\t' || c == '\n' || c == '\r' || c == '\x0b' || c == '\x0c'

/-- JS `String.prototype.trim`. -/
def jsTrim (s : Str) : Str :=
  ((s.dropWhile isJsWs).reverse.dropWhile isJsWs).reverse

/-- JS `String.prototype.startsWith`. -/
def jsStartsWith : Str → Str → Bool
  | [], _ => true
  | _ :: _, [] => false
  | p :: ps, c :: cs => p == c && jsStartsWith ps cs

/-- JS `String.prototype.endsWith`. -/
def jsEndsWith (suf s : Str) : Bool := jsStartsWith suf.reverse s.reverse

/-- JS `array.pop()` on the nonempty result of a split: the last element. -/
def jsLast (xs : List Str) : Str := xs.getLastD []

/-- JS number-to-string interpolation for a natural number (fuel-structured
so that it reduces by kernel evaluation). -/
def natToStrGo : Nat → Nat → Str
  | 0, _ => []
  | fuel + 1, n =>
    if n < 10 then [(str "0123456789").getD n '0']
    else natToStrGo fuel (n / 10) ++ [(str "0123456789").getD (n % 10) '0']

/-- JS `${n}` for a natural number `n`. -/
def natToStr (n : Nat) : Str := natToStrGo (n + 1) n

/-! ## The ChaCha20-Poly1305 IETF AEAD (RFC 8439), as implemented by libsodium -/

/-- Reduction modulo 2^32. -/
def w32 (n : Nat) : Nat := n % 4294967296

/-- 32-bit left rotation (operand already < 2^32). -/
def rotl32 (x n : Nat) : Nat := (x * 2 ^ n) % 4294967296 + x / 2 ^ (32 - n)

/-- ChaCha quarter round. -/
def qr (a b c d : Nat) : Nat × Nat × Nat × Nat :=
  let a1 := w32 (a + b)
  let d1 := rotl32 (Nat.xor d a1) 16
  let c1 := w32 (c + d1)
  let b1 := rotl32 (Nat.xor b c1) 12
  let a2 := w32 (a1 + b1)
  let d2 := rotl32 (Nat.xor d1 a2) 8
  let c2 := w32 (c1 + d2)
  let b2 := rotl32 (Nat.xor b1 c2) 7
  (a2, b2, c2, d2)

/-- The 16-word ChaCha state. -/
structure CState where
  s0 : Nat
  s1 : Nat
  s2 : Nat
  s3 : Nat
  s4 : Nat
  s5 : Nat
  s6 : Nat
  s7 : Nat
  s8 : Nat
  s9 : Nat
  s10 : Nat
  s11 : Nat
  s12 : Nat
  s13 : Nat
  s14 : Nat
  s15 : Nat

/-- One ChaCha double round (column round then diagonal round). -/
def dRound (s : CState) : CState :=
  let (a0, a4, a8, a12) := qr s.s0 s.s4 s.s8 s.s12
  let (a1, a5, a9, a13) := qr s.s1 s.s5 s.s9 s.s13
  let (a2, a6, a10, a14) := qr s.s2 s.s6 s.s10 s.s14
  let (a3, a7, a11, a15) := qr s.s3 s.s7 s.s11 s.s15
  let (b0, b5, b10, b15) := qr a0 a5 a10 a15
  let (b1, b6, b11, b12) := qr a1 a6 a11 a12
  let (b2, b7, b8, b13) := qr a2 a7 a8 a13
  let (b3, b4, b9, b14) := qr a3 a4 a9 a14
  ⟨b0, b1, b2, b3, b4, b5, b6, b7, b8, b9, b10, b11, b12, b13, b14, b15⟩

/-- Iterated double rounds. -/
def dRounds : Nat → CState → CState
  | 0, s => s
  | n + 1, s => dRounds n (dRound s)

/-- Little-endian 32-bit word read at byte offset `i` of a byte list. -/
def leWord (b : Bytes) (i : Nat) : Nat :=
  b.getD i 0 + 256 * b.getD (i + 1) 0 + 65536 * b.getD (i + 2) 0 +
    16777216 * b.getD (i + 3) 0

/-- Initial ChaCha20 state for the IETF construction (96-bit nonce). -/
def chachaInit (key nonce : Bytes) (counter : Nat) : CState :=
  ⟨0x61707865, 0x3320646e, 0x79622d32, 0x6b206574,
   leWord key 0, leWord key 4, leWord key 8, leWord key 12,
   leWord key 16, leWord key 20, leWord key 24, leWord key 28,
   w32 counter, leWord nonce 0, leWord nonce 4, leWord nonce 8⟩

/-- Word-wise sum modulo 2^32 of two ChaCha states. -/
def addState (a b : CState) : CState :=
  ⟨w32 (a.s0 + b.s0), w32 (a.s1 + b.s1), w32 (a.s2 + b.s2), w32 (a.s3 + b.s3),
   w32 (a.s4 + b.s4), w32 (a.s5 + b.s5), w32 (a.s6 + b.s6), w32 (a.s7 + b.s7),
   w32 (a.s8 + b.s8), w32 (a.s9 + b.s9), w32 (a.s10 + b.s10), w32 (a.s11 + b.s11),
   w32 (a.s12 + b.s12), w32 (a.s13 + b.s13), w32 (a.s14 + b.s14), w32 (a.s15 + b.s15)⟩

/-- `k` little-endian bytes of `n`. -/
def leBytes : Nat → Nat → Bytes
  | 0, _ => []
  | k + 1, n => n % 256 :: leBytes k (n / 256)

/-- One 64-byte ChaCha20 block. -/
def chachaBlock (key nonce : Bytes) (counter : Nat) : Bytes :=
  let s0 := chachaInit key nonce counter
  let s := addState (dRounds 10 s0) s0
  leBytes 4 s.s0 ++ leBytes 4 s.s1 ++ leBytes 4 s.s2 ++ leBytes 4 s.s3 ++
  leBytes 4 s.s4 ++ leBytes 4 s.s5 ++ leBytes 4 s.s6 ++ leBytes 4 s.s7 ++
  leBytes 4 s.s8 ++ leBytes 4 s.s9 ++ leBytes 4 s.s10 ++ leBytes 4 s.s11 ++
  leBytes 4 s.s12 ++ leBytes 4 s.s13 ++ leBytes 4 s.s14 ++ leBytes 4 s.s15

/-- Concatenation of `n` consecutive ChaCha20 blocks starting at `counter`. -/
def ksBlocks (key nonce : Bytes) : Nat → Nat → Bytes
  | 0, _ => []
  | n + 1, counter => chachaBlock key nonce counter ++ ksBlocks key nonce n (counter + 1)

/-- `len` bytes of ChaCha20 keystream starting at block `counter`. -/
def chachaStream (key nonce : Bytes) (counter len : Nat) : Bytes :=
  (ksBlocks key nonce ((len + 63) / 64) counter).take len

/-- Little-endian value of a byte list. -/
def leNum : Bytes → Nat
  | [] => 0
  | b :: bs => b + 256 * leNum bs

/-- The Poly1305 prime 2^130 - 5. -/
def polyP : Nat := 2 ^ 130 - 5

/-- Poly1305 accumulator over the 16-byte chunks of a message
(fuel-structured on the message length so that it kernel-reduces). -/
def polyBlocksGo (r : Nat) : Nat → Bytes → Nat → Nat
  | _, [], acc => acc
  | 0, _ :: _, acc => acc
  | fuel + 1, b :: bs, acc =>
    let chunk := (b :: bs).take 16
    polyBlocksGo r fuel ((b :: bs).drop 16)
      ((acc + leNum chunk + 2 ^ (8 * chunk.length)) * r % polyP)

/-- Poly1305 one-time MAC: 32-byte key, 16-byte tag. -/
def poly1305 (key msg : Bytes) : Bytes :=
  let r := Nat.land (leNum (key.take 16)) 0x0ffffffc0ffffffc0ffffffc0fffffff
  let s := leNum ((key.drop 16).take 16)
  leBytes 16 ((polyBlocksGo r msg.length msg 0 + s) % 2 ^ 128)

/-- Zero padding of a byte list to a multiple of 16 bytes. -/
def pad16 (b : Bytes) : Bytes := List.replicate ((16 - b.length % 16) % 16) 0

/-- The byte string authenticated by Poly1305 in the IETF AEAD construction. -/
def macData (aad ct : Bytes) : Bytes :=
  aad ++ pad16 aad ++ ct ++ pad16 ct ++ leBytes 8 aad.length ++ leBytes 8 ct.length

/-- The one-time Poly1305 key: first 32 bytes of ChaCha20 block 0. -/
def polyKeyFor (key nonce : Bytes) : Bytes := (chachaBlock key nonce 0).take 32

/-- `crypto_aead_chacha20poly1305_ietf_encrypt`: ciphertext with the 16-byte
tag appended. -/
def aeadChaChaEncrypt (m key nonce aad : Bytes) : Bytes :=
  let ct := List.zipWith Nat.xor m (chachaStream key nonce 1 m.length)
  ct ++ poly1305 (polyKeyFor key nonce) (macData aad ct)

/-- `crypto_aead_chacha20poly1305_ietf_decrypt`: verify the tag over the
received ciphertext body, then decrypt; `none` when the tag fails. -/
def aeadChaChaDecrypt (c key nonce aad : Bytes) : Option Bytes :=
  if c.length < 16 then none
  else
    let ct := c.take (c.length - 16)
    let tag := c.drop (c.length - 16)
    if poly1305 (polyKeyFor key nonce) (macData aad ct) = tag then
      some (List.zipWith Nat.xor ct (chachaStream key nonce 1 ct.length))
    else none

/-! ## Base64 (Node `Buffer.toString('base64')`, libsodium `from_base64`,
browser `atob`) -/

/-- The standard base64 alphabet. -/
def b64StdChars : Str :=
  str "ABCDEFGHIJKLMNOPQRSTUVWXYZabcdefghijklmnopqrstuvwxyz0123456789+/"

/-- The URL-safe base64 alphabet used by libsodium's default variant. -/
def b64UrlChars : Str :=
  str "ABCDEFGHIJKLMNOPQRSTUVWXYZabcdefghijklmnopqrstuvwxyz0123456789-_"

/-- Standard-alphabet encoding of a 6-bit value. -/
def b64Chr (n : Nat) : Char := b64StdChars.getD n '='

/-- Node `Buffer.toString('base64')`: standard alphabet with `=` padding. -/
def bufToBase64 : Bytes → Str
  | [] => []
  | [a] => [b64Chr (a / 4), b64Chr (a % 4 * 16), '=', '=']
  | [a, b] => [b64Chr (a / 4), b64Chr (a % 4 * 16 + b / 16), b64Chr (b % 16 * 4), '=']
  | a :: b :: c :: rest =>
    b64Chr (a / 4) :: b64Chr (a % 4 * 16 + b / 16) ::
      b64Chr (b % 16 * 4 + c / 64) :: b64Chr (c % 64) :: bufToBase64 rest

/-- Index of a character in an alphabet. -/
def charIdx (alpha : Str) (c : Char) : Option Nat :=
  match alpha with
  | [] => none
  | a :: as => if a = c then some 0 else (charIdx as c).map (· + 1)

/-- Map every character of a string to its 6-bit value, failing on a
character outside the alphabet. -/
def b64Digits (alpha : Str) : Str → Option (List Nat)
  | [] => some []
  | c :: cs =>
    match charIdx alpha c with
    | none => none
    | some d => (b64Digits alpha cs).map (d :: ·)

/-- Reassemble bytes from 6-bit values. `strict` enforces that the unused
trailing bits of the final group are zero (libsodium does, `atob` does not);
a trailing group of a single digit is always invalid. -/
def b64DecodeQuads (strict : Bool) : List Nat → Option Bytes
  | [] => some []
  | [_] => none
  | [a, b] => if strict && decide (b % 16 ≠ 0) then none else some [a * 4 + b / 16]
  | [a, b, c] =>
    if strict && decide (c % 4 ≠ 0) then none
    else some [a * 4 + b / 16, b % 16 * 16 + c / 4]
  | a :: b :: c :: d :: rest =>
    (b64DecodeQuads strict rest).map
      (fun bs => (a * 4 + b / 16) :: (b % 16 * 16 + c / 4) :: (c % 4 * 64 + d) :: bs)

/-- libsodium-wrappers `from_base64` with its default variant
`URLSAFE_NO_PADDING`: URL-safe alphabet, no `=` accepted, canonical. -/
def sodiumFromBase64 (s : Str) : Option Bytes :=
  match b64Digits b64UrlChars s with
  | none => none
  | some ds => b64DecodeQuads true ds

/-- The ASCII whitespace stripped by the forgiving-base64 decode of `atob`. -/
def isB64Ws (c : Char) : Bool :=
  c == ' ' || c == '\t' || c == '\n' || c == '\x0c' || c == '\r'

/-- Browser `atob`: forgiving base64 — strip whitespace, strip up to two
trailing `=` when the length is a multiple of four, standard alphabet,
trailing bits not validated. -/
def atob (s : Str) : Option Bytes :=
  let t0 := s.filter (fun c => !isB64Ws c)
  let t :=
    if t0.length % 4 = 0 then
      if jsEndsWith (str "==") t0 then t0.take (t0.length - 2)
      else if jsEndsWith (str "=") t0 then t0.take (t0.length - 1)
      else t0
    else t0
  if t.length % 4 = 1 then none
  else
    match b64Digits b64StdChars t with
    | none => none
    | some ds => b64DecodeQuads false ds

/-- The loader's base64 decode: `sodium.from_base64`, falling back to
`atob` when the strict decoder throws (src/unnamed/part_000). -/
def dualBase64Decode (s : Str) : Option Bytes :=
  match sodiumFromBase64 s with
  | some b => some b
  | none => atob s

/-! ## src/server/encryption.js — `ChaChaEncryption` -/

/-- The errors thrown out of the sodium-native calls in
`ChaChaEncryption`: argument-length assertions, the `RangeError` of
`Buffer.alloc` on a negative size, and tag-verification failure. -/
inductive SodiumErr where
  | badKeyLen (n : Nat)
  | badNonceLen (n : Nat)
  | allocRange
  | verifyFailed
deriving DecidableEq

namespace ChaChaEncryption

/-- `encryptSegment(plaintext, key, nonce)` (additionalData is `null` at
every call site): allocate `plaintext.length + 16` bytes and fill them with
the AEAD ciphertext; sodium-native rejects wrong key/nonce lengths. -/
def encryptSegment (plaintext key nonce : Bytes) : Except SodiumErr Bytes :=
  if key.length ≠ 32 then .error (.badKeyLen key.length)
  else if nonce.length ≠ 12 then .error (.badNonceLen nonce.length)
  else .ok (aeadChaChaEncrypt plaintext key nonce [])

/-- `decryptSegment(ciphertext, key, nonce)`: `Buffer.alloc(ciphertext.length
- 16)` throws a `RangeError` for short input before sodium is reached; then
sodium-native validates the key and nonce lengths and verifies the tag. -/
def decryptSegment (ciphertext key nonce : Bytes) : Except SodiumErr Bytes :=
  if ciphertext.length < 16 then .error .allocRange
  else if key.length ≠ 32 then .error (.badKeyLen key.length)
  else if nonce.length ≠ 12 then .error (.badNonceLen nonce.length)
  else
    match aeadChaChaDecrypt ciphertext key nonce [] with
    | some m => .ok m
    | none => .error .verifyFailed

end ChaChaEncryption

/-- A segment record as assembled by `encryptHLSSegments`: the encrypted
file name and the base64-encoded nonce string embedded in the manifest. -/
structure EncSegment where
  encrypted : Str
  nonce : Str
deriving DecidableEq

/-- `generateCustomM3U8(encryptedSegments, masterKey, segmentDuration)`
(src/server/encryption.js): the extended manifest text. -/
def generateCustomM3U8 (encryptedSegments : List EncSegment) (masterKey : Bytes)
    (segmentDuration : Nat) : Str :=
  str "#EXTM3U\n#EXT-X-VERSION:3\n#EXT-X-TARGETDURATION:" ++
    natToStr segmentDuration ++
    str "\n#EXT-X-MEDIA-SEQUENCE:0\n#EXT-X-PLAYLIST-TYPE:VOD\n\n#EXT-X-CUSTOM-KEY:METHOD=CHACHA20-POLY1305,URI=\"data:text/plain;base64," ++
    bufToBase64 masterKey ++ str "\"\n\n" ++
    (encryptedSegments.map (fun segment =>
      str "#EXTINF:" ++ natToStr segmentDuration ++ str ".0,\n#EXT-X-SEGMENT-NONCE:" ++
        segment.nonce ++ str "\n" ++ segment.encrypted ++ str "\n")).flatten ++
    str "#EXT-X-ENDLIST"

/-! ## src/unnamed/part_000 — `EncryptedSegmentLoader` -/

/-- The literal `#EXT-X-CUSTOM-KEY:` opening the key-directive regex. -/
def customKeyTag : Str := str "#EXT-X-CUSTOM-KEY:"

/-- The literal `URI="data:text/plain;base64,` of the key-directive regex. -/
def uriLit : Str := str "URI=\"data:text/plain;base64,"

/-- The nonce-directive literal `#EXT-X-SEGMENT-NONCE:`. -/
def nonceTag : Str := str "#EXT-X-SEGMENT-NONCE:"

/-- The capture group `([^"]+)` followed by the closing quote: a maximal
nonempty run of non-quote characters, which must end at a `"`. -/
def tryCapture (cs : Str) : Option Str :=
  let payload := cs.takeWhile (fun c => c ≠ '"')
  if payload.length = 0 then none
  else
    match cs.drop payload.length with
    | '"' :: _ => some payload
    | _ => none

/-- Candidate offsets at which `uriLit` matches, restricted to the current
line (the regex `.*` between the two literals cannot cross a newline). -/
def uriStartsFrom : Str → Nat → List Nat
  | [], _ => []
  | c :: cs, i =>
    if c = '\n' then []
    else
      (if jsStartsWith uriLit (c :: cs) then [i] else []) ++ uriStartsFrom cs (i + 1)

/-- Try the candidate offsets in the given order, returning the first
successful capture (the greedy `.*` tries the rightmost offset first). -/
def firstCapture (cs : Str) : List Nat → Option Str
  | [] => none
  | i :: is =>
    match tryCapture (cs.drop (i + uriLit.length)) with
    | some r => some r
    | none => firstCapture cs is

/-- Match `.*URI="data:text\/plain;base64,([^"]+)"` against the text
following a `#EXT-X-CUSTOM-KEY:` occurrence. -/
def matchAfterKeyTag (cs : Str) : Option Str :=
  firstCapture cs (uriStartsFrom cs 0).reverse

/-- The JS regex
`/#EXT-X-CUSTOM-KEY:.*URI="data:text\/plain;base64,([^"]+)"/` applied to
the whole manifest: leftmost occurrence of the key tag whose line completes
the pattern, greedy `.*`, with backtracking to later start positions. -/
def findKeyPayload : Str → Option Str
  | [] => none
  | c :: cs =>
    if jsStartsWith customKeyTag (c :: cs) then
      match matchAfterKeyTag ((c :: cs).drop customKeyTag.length) with
      | some payload => some payload
      | none => findKeyPayload cs
    else findKeyPayload cs

/-- The two exceptions `parseEncryptionKey` can throw. -/
inductive ParseKeyErr where
  | invalidB64
  | notFound
deriving DecidableEq

/-- The errors surfacing from the loader's `decryptSegment` (each is
rethrown as `Decryption failed: <distinct message>`). -/
inductive DecryptErr where
  | nonceB64
  | invalidKeySize (n : Nat)
  | invalidNonceSize (n : Nat)
  | ciphertextShort
  | verifyFailed
deriving DecidableEq

namespace EncryptedSegmentLoader

/-- `parseEncryptionKey(m3u8Content)` with sodium initialized: extract the
base64 payload of the key directive, trim it, decode it with
`sodium.from_base64` falling back to `atob`; throw `Invalid base64 key
format` when both decoders fail, `Encryption key not found in playlist`
when the directive is absent. -/
def parseEncryptionKey (m3u8Content : Str) : Except ParseKeyErr Bytes :=
  match findKeyPayload m3u8Content with
  | some payload =>
    match dualBase64Decode (jsTrim payload) with
    | some key => .ok key
    | none => .error .invalidB64
  | none => .error .notFound

/-- The inner scan of `parseSegmentNonces`: the first following line that
does not start with `#` and whose trim is nonempty, returned trimmed. -/
def nextSegmentLine : List Str → Option Str
  | [] => none
  | l :: ls =>
    if jsStartsWith (str "#") l = false ∧ jsTrim l ≠ [] then some (jsTrim l)
    else nextSegmentLine ls

/-- JS `Map.prototype.set`: update in place when the key exists, append
otherwise. -/
def mapSet (m : List (Str × Str)) (k v : Str) : List (Str × Str) :=
  if m.any (fun p => p.1 == k) then
    m.map (fun p => if p.1 == k then (k, v) else p)
  else m ++ [(k, v)]

/-- JS `Map.prototype.get`. -/
def mapGet (m : List (Str × Str)) (k : Str) : Option Str :=
  (m.find? (fun p => p.1 == k)).map (fun p => p.2)

/-- The outer loop of `parseSegmentNonces`: at each nonce-directive line,
take `line.split(':')[1]` as the nonce and associate it with the next
non-comment nonblank line (the loop then resumes at the following line). -/
def parseNoncesLoop : List Str → List (Str × Str) → List (Str × Str)
  | [], m => m
  | l :: ls, m =>
    if jsStartsWith nonceTag l then
      match nextSegmentLine ls with
      | some seg => parseNoncesLoop ls (mapSet m seg ((jsSplit ':' l).getD 1 []))
      | none => parseNoncesLoop ls m
    else parseNoncesLoop ls m

/-- `parseSegmentNonces(m3u8Content)`. -/
def parseSegmentNonces (m3u8Content : Str) : List (Str × Str) :=
  parseNoncesLoop (jsSplit '\n' m3u8Content) []

/-- `decryptSegment(encryptedData, key, nonce)`: decode the base64 nonce
(`sodium.from_base64` with `atob` fallback), validate the key and nonce
lengths, then `crypto_aead_chacha20poly1305_ietf_decrypt`. -/
def decryptSegment (encryptedData key : Bytes) (nonce : Str) : Except DecryptErr Bytes :=
  match dualBase64Decode nonce with
  | none => .error .nonceB64
  | some nonceBuffer =>
    if key.length ≠ 32 then .error (.invalidKeySize key.length)
    else if nonceBuffer.length ≠ 12 then .error (.invalidNonceSize nonceBuffer.length)
    else if encryptedData.length < 16 then .error .ciphertextShort
    else
      match aeadChaChaDecrypt encryptedData key nonceBuffer [] with
      | some m => .ok m
      | none => .error .verifyFailed

/-- The loop body of `cleanM3U8ForHls` for one raw line: trim; drop blank
lines and the two proprietary directives; rewrite a bare relative `.enc`
reference to the fixed server URL when the base URL is a `blob:` URL
(`proto`/`host` stand for `window.location.protocol`/`.host`). -/
def processLine (baseUrl : Option Str) (proto host : Str) (rawLine : Str) : Option Str :=
  let line := jsTrim rawLine
  if line = [] then none
  else if jsStartsWith customKeyTag line || jsStartsWith nonceTag line then none
  else
    match baseUrl with
    | some b =>
      if jsStartsWith (str "#") line = false ∧ jsEndsWith (str ".enc") line = true ∧
          jsStartsWith (str "blob:") b = true ∧ jsStartsWith (str "http") line = false ∧
          jsStartsWith (str "/") line = false then
        some (proto ++ str "//" ++ host ++ str "/output/my-encrypted-video/" ++ line)
      else some line
    | none => some line

/-- The line loop of `cleanM3U8ForHls` (push into `cleanedLines`). -/
def cleanLines (baseUrl : Option Str) (proto host : Str) : List Str → List Str
  | [] => []
  | l :: ls =>
    match processLine baseUrl proto host l with
    | some out => out :: cleanLines baseUrl proto host ls
    | none => cleanLines baseUrl proto host ls

/-- `cleanM3U8ForHls(m3u8Content, baseUrl)`. -/
def cleanM3U8ForHls (m3u8Content : Str) (baseUrl : Option Str) (proto host : Str) : Str :=
  jsJoin (str "\n") (cleanLines baseUrl proto host (jsSplit '\n' m3u8Content))

/-- The process-wide `encryptionState` shared by loader instances. -/
structure EncryptionState where
  decryptionKey : Option Bytes
  segmentNonces : List (Str × Str)
deriving DecidableEq

/-- The payload handed to a loader callback: text for manifests, bytes for
segments. -/
inductive LoadData where
  | txt (s : Str)
  | bin (b : Bytes)
deriving DecidableEq

/-- A completed `XMLHttpRequest` as observed by the `onload` handler. -/
structure XhrResponse where
  status : Nat
  statusText : Str
  body : LoadData
deriving DecidableEq

/-- Which callback `load` invoked, and with what. -/
inductive LoadOutcome where
  | onSuccess (url : Str) (data : LoadData)
  | onError (code : Nat) (text : Str)
deriving DecidableEq

/-- The `Decryption failed: ...` message texts (the nonce-decode failure
message comes from the `atob` exception and is browser specific). -/
def decryptErrMsg : DecryptErr → Str
  | .nonceB64 => str "Decryption failed: InvalidCharacterError"
  | .invalidKeySize n => str "Decryption failed: Invalid key size: expected 32 bytes, got " ++ natToStr n
  | .invalidNonceSize n => str "Decryption failed: Invalid nonce size: expected 12 bytes, got " ++ natToStr n
  | .ciphertextShort => str "Decryption failed: ciphertext is too short"
  | .verifyFailed => str "Decryption failed: invalid usage"

/-- The `onload` handler of `EncryptedSegmentLoader.load`, as a transformer
of the shared `encryptionState`: status check, manifest parse with
pass-through on any parse error, segment decrypt keyed by URL basename,
binary pass-through otherwise. Returns the state after the call and the
callback that was invoked. -/
def load (proto host : Str) (st : EncryptionState) (url : Str)
    (resp : XhrResponse) : EncryptionState × LoadOutcome :=
  if resp.status = 200 then
    match resp.body with
    | .txt textData =>
      match parseEncryptionKey textData with
      | .ok key =>
        ({ decryptionKey := some key, segmentNonces := parseSegmentNonces textData },
          .onSuccess url (.txt (cleanM3U8ForHls textData (some url) proto host)))
      | .error _ => (st, .onSuccess url (.txt textData))
    | .bin data =>
      if jsEndsWith (str ".enc") url then
        let filename := jsLast (jsSplit '/' url)
        match (if filename ≠ [] then mapGet st.segmentNonces filename else none) with
        | none => (st, .onError 200 (str "Nonce not found for segment: " ++ filename))
        | some nonce =>
          if nonce = [] then
            (st, .onError 200 (str "Nonce not found for segment: " ++ filename))
          else
            match st.decryptionKey with
            | none => (st, .onError 200 (str "Decryption key not available"))
            | some key =>
              match decryptSegment data key nonce with
              | .ok pt => (st, .onSuccess url (.bin pt))
              | .error e => (st, .onError 200 (decryptErrMsg e))
      else (st, .onSuccess url (.bin data))
  else (st, .onError resp.status resp.statusText)

end EncryptedSegmentLoader

/-- Segment-table fold: the table built by processing the blocks in order. -/
def noncesFold (m : List (Str × Str)) (segs : List EncSegment) : List (Str × Str) :=
  segs.foldl (fun acc s => EncryptedSegmentLoader.mapSet acc s.encrypted s.nonce) m

/-- The line list of a rendered manifest, as produced by splitting
`generateCustomM3U8` on newlines. -/
def renderLines (segs : List EncSegment) (key : Bytes) (d : Nat) : List Str :=
  str "#EXTM3U" :: str "#EXT-X-VERSION:3" :: (str "#EXT-X-TARGETDURATION:" ++ natToStr d) ::
    str "#EXT-X-MEDIA-SEQUENCE:0" :: str "#EXT-X-PLAYLIST-TYPE:VOD" :: [] ::
    (str "#EXT-X-CUSTOM-KEY:METHOD=CHACHA20-POLY1305,URI=\"data:text/plain;base64," ++
      bufToBase64 key ++ str "\"") :: [] ::
    ((segs.map (fun s =>
        [str "#EXTINF:" ++ natToStr d ++ str ".0,", nonceTag ++ s.nonce, s.encrypted])).flatten ++
      [str "#EXT-X-ENDLIST"])

/-! ## Length lemmas for the AEAD -/

theorem leBytes_length (k n : Nat) : (leBytes k n).length = k := by
  induction k generalizing n with
  | zero => rfl
  | succ k ih => simp [leBytes, ih]

theorem chachaBlock_length (key nonce : Bytes) (c : Nat) :
    (chachaBlock key nonce c).length = 64 := by
  simp [chachaBlock, leBytes_length]

theorem ksBlocks_length (key nonce : Bytes) (n c : Nat) :
    (ksBlocks key nonce n c).length = 64 * n := by
  induction n generalizing c with
  | zero => rfl
  | succ n ih => simp [ksBlocks, chachaBlock_length, ih]; omega

theorem chachaStream_length (key nonce : Bytes) (c len : Nat) :
    (chachaStream key nonce c len).length = len := by
  simp [chachaStream, List.length_take, ksBlocks_length]
  omega

theorem poly1305_length (key msg : Bytes) : (poly1305 key msg).length = 16 := by
  simp [poly1305, leBytes_length]

theorem zipWith_xor_cancel (p k : Bytes) (h : p.length ≤ k.length) :
    List.zipWith Nat.xor (List.zipWith Nat.xor p k) k = p := by
  induction p generalizing k with
  | nil => simp
  | cons a p ih =>
    cases k with
    | nil => simp at h
    | cons b k =>
      simp only [List.zipWith]
      rw [show Nat.xor (Nat.xor a b) b = a from Nat.xor_cancel_right b a]
      simp only [List.length_cons, Nat.succ_le_succ_iff] at h
      rw [ih k h]

/-- The RFC 8439 AEAD construction round-trips: verifying the freshly
computed tag over the just-produced ciphertext succeeds and the keystream
xor cancels. -/
theorem aead_roundtrip (p key nonce aad : Bytes) :
    aeadChaChaDecrypt (aeadChaChaEncrypt p key nonce aad) key nonce aad = some p := by
  have hS : (chachaStream key nonce 1 p.length).length = p.length :=
    chachaStream_length key nonce 1 p.length
  have hct : (List.zipWith Nat.xor p (chachaStream key nonce 1 p.length)).length = p.length := by
    rw [List.length_zipWith, hS]
    simp
  simp only [aeadChaChaEncrypt, aeadChaChaDecrypt]
  set ct := List.zipWith Nat.xor p (chachaStream key nonce 1 p.length) with hctdef
  set tag := poly1305 (polyKeyFor key nonce) (macData aad ct) with htagdef
  have hctlen : ct.length = p.length := hct
  have hlen : (ct ++ tag).length = p.length + 16 := by
    rw [List.length_append, hctlen, htagdef, poly1305_length]
  rw [hlen, if_neg (by omega), Nat.add_sub_cancel, ← hctlen, List.take_left, List.drop_left,
    ← htagdef, if_pos rfl, hctlen]
  rw [hctdef]
  exact congrArg some (zipWith_xor_cancel p _ (le_of_eq hS.symm))

/-- C1: AEAD round trip — for every plaintext byte sequence `P`, every
32-byte key `K` and every 12-byte nonce `N` (empty associated data),
`decryptSegment(encryptSegment(P, K, N), K, N)` returns exactly `P`. -/
theorem C1_aead_roundtrip (p key nonce : Bytes)
    (hk : key.length = 32) (hn : nonce.length = 12) :
    (ChaChaEncryption.encryptSegment p key nonce).bind
      (fun c => ChaChaEncryption.decryptSegment c key nonce) = Except.ok p := by
  have henc : ChaChaEncryption.encryptSegment p key nonce =
      Except.ok (aeadChaChaEncrypt p key nonce []) := by
    rw [ChaChaEncryption.encryptSegment, if_neg (by omega), if_neg (by omega)]
  rw [henc]
  show ChaChaEncryption.decryptSegment (aeadChaChaEncrypt p key nonce []) key nonce =
    Except.ok p
  have hlen : (aeadChaChaEncrypt p key nonce []).length = p.length + 16 := by
    simp [aeadChaChaEncrypt, poly1305_length, List.length_zipWith, chachaStream_length]
  rw [ChaChaEncryption.decryptSegment, if_neg (by omega), if_neg (by omega),
    if_neg (by omega), aead_roundtrip]

/-- Witness for C1 at a concrete plaintext, key and nonce. -/
theorem C1_aead_roundtrip_witness :
    (ChaChaEncryption.encryptSegment [72, 105, 33] (List.range 32) (List.range 12)).bind
      (fun c => ChaChaEncryption.decryptSegment c (List.range 32) (List.range 12)) =
    Except.ok [72, 105, 33] :=
  C1_aead_roundtrip [72, 105, 33] (List.range 32) (List.range 12) (by decide) (by decide)

/-- C9: only HTTP status exactly 200 takes the success path of `load`; any
other completed status — 201 and 206 included — invokes the error callback
with that status code, and the shared state is untouched (no parsing,
cleaning or decryption happens). -/
theorem C9_only_status_200 (proto host : Str) (st : EncryptedSegmentLoader.EncryptionState)
    (url : Str) (resp : EncryptedSegmentLoader.XhrResponse) (h : resp.status ≠ 200) :
    EncryptedSegmentLoader.load proto host st url resp =
      (st, .onError resp.status resp.statusText) := by
  rw [EncryptedSegmentLoader.load, if_neg h]

/-- Witness for C9 at status 206 on a binary body. -/
theorem C9_only_status_200_witness :
    EncryptedSegmentLoader.load (str "http:") (str "localhost:3000") ⟨none, []⟩
      (str "http://localhost:3000/output/my-encrypted-video/seg000.enc")
      ⟨206, str "Partial Content", .bin [1, 2, 3]⟩ =
    (⟨none, []⟩, .onError 206 (str "Partial Content")) :=
  C9_only_status_200 (str "http:") (str "localhost:3000") ⟨none, []⟩
    (str "http://localhost:3000/output/my-encrypted-video/seg000.enc")
    ⟨206, str "Partial Content", .bin [1, 2, 3]⟩ (by decide)

/-- C5: key/nonce length validation — the server cipher's encrypt and
decrypt (sodium-native argument assertions, for any ciphertext long enough
to be allocatable) and the loader's decrypt (its explicit size checks, for
any nonce string that base64-decodes) reject every key whose length is not
32 and every nonce whose length is not 12 with length errors that carry the
offending length and are distinct from the tag-verification error, before
any encryption or decryption is attempted. -/
theorem C5_length_validation (pt c key nonce : Bytes) (ns : Str) (nb : Bytes) :
    (key.length ≠ 32 →
      ChaChaEncryption.encryptSegment pt key nonce = .error (.badKeyLen key.length)) ∧
    (key.length = 32 → nonce.length ≠ 12 →
      ChaChaEncryption.encryptSegment pt key nonce = .error (.badNonceLen nonce.length)) ∧
    (16 ≤ c.length → key.length ≠ 32 →
      ChaChaEncryption.decryptSegment c key nonce = .error (.badKeyLen key.length)) ∧
    (16 ≤ c.length → key.length = 32 → nonce.length ≠ 12 →
      ChaChaEncryption.decryptSegment c key nonce = .error (.badNonceLen nonce.length)) ∧
    (dualBase64Decode ns = some nb → key.length ≠ 32 →
      EncryptedSegmentLoader.decryptSegment c key ns = .error (.invalidKeySize key.length)) ∧
    (dualBase64Decode ns = some nb → key.length = 32 → nb.length ≠ 12 →
      EncryptedSegmentLoader.decryptSegment c key ns = .error (.invalidNonceSize nb.length)) ∧
    (∀ n : Nat, SodiumErr.badKeyLen n ≠ SodiumErr.verifyFailed ∧
      SodiumErr.badNonceLen n ≠ SodiumErr.verifyFailed ∧
      DecryptErr.invalidKeySize n ≠ DecryptErr.verifyFailed ∧
      DecryptErr.invalidNonceSize n ≠ DecryptErr.verifyFailed) := by
  refine ⟨?_, ?_, ?_, ?_, ?_, ?_, ?_⟩
  · intro hk
    rw [ChaChaEncryption.encryptSegment, if_pos hk]
  · intro hk hn
    rw [ChaChaEncryption.encryptSegment, if_neg (by omega), if_pos hn]
  · intro hc hk
    rw [ChaChaEncryption.decryptSegment, if_neg (by omega), if_pos hk]
  · intro hc hk hn
    rw [ChaChaEncryption.decryptSegment, if_neg (by omega), if_neg (by omega), if_pos hn]
  · intro hdec hk
    rw [EncryptedSegmentLoader.decryptSegment, hdec]
    simp only []
    rw [if_pos hk]
  · intro hdec hk hn
    rw [EncryptedSegmentLoader.decryptSegment, hdec]
    simp only []
    rw [if_neg (by omega), if_pos hn]
  · intro n
    refine ⟨fun h => SodiumErr.noConfusion h, fun h => SodiumErr.noConfusion h,
      fun h => DecryptErr.noConfusion h, fun h => DecryptErr.noConfusion h⟩

/-- Witness for C5 at the boundary lengths 31, 33, 11 and 13. -/
theorem C5_length_validation_witness :
    ChaChaEncryption.encryptSegment [0] (List.range 31) (List.range 12) =
      .error (.badKeyLen 31) ∧
    ChaChaEncryption.encryptSegment [0] (List.range 32) (List.range 11) =
      .error (.badNonceLen 11) ∧
    ChaChaEncryption.decryptSegment (List.range 16) (List.range 33) (List.range 12) =
      .error (.badKeyLen 33) ∧
    ChaChaEncryption.decryptSegment (List.range 16) (List.range 32) (List.range 13) =
      .error (.badNonceLen 13) ∧
    EncryptedSegmentLoader.decryptSegment (List.range 16) (List.range 31)
      (bufToBase64 (List.range 12)) = .error (.invalidKeySize 31) ∧
    EncryptedSegmentLoader.decryptSegment (List.range 16) (List.range 32)
      (bufToBase64 (List.range 13)) = .error (.invalidNonceSize 13) ∧
    SodiumErr.badKeyLen 31 ≠ SodiumErr.verifyFailed := by
  refine ⟨?_, ?_, ?_, ?_, ?_, ?_, ?_⟩
  · exact (C5_length_validation [0] [] (List.range 31) (List.range 12) [] []).1 (by decide)
  · exact (C5_length_validation [0] [] (List.range 32) (List.range 11) [] []).2.1
      (by decide) (by decide)
  · exact (C5_length_validation [] (List.range 16) (List.range 33) (List.range 12) [] []).2.2.1
      (by decide) (by decide)
  · exact (C5_length_validation [] (List.range 16) (List.range 32) (List.range 13) [] []).2.2.2.1
      (by decide) (by decide) (by decide)
  · exact (C5_length_validation [] (List.range 16) (List.range 31) []
      (bufToBase64 (List.range 12)) (List.range 12)).2.2.2.2.1 (by decide) (by decide)
  · exact (C5_length_validation [] (List.range 16) (List.range 32) []
      (bufToBase64 (List.range 13)) (List.range 13)).2.2.2.2.2.1
      (by decide) (by decide) (by decide)
  · exact ((C5_length_validation [] [] [] [] [] []).2.2.2.2.2.2 31).1

/-! ## Split/join and startsWith lemmas -/

theorem jsSplit_ne_nil (sep : Char) (s : Str) : jsSplit sep s ≠ [] := by
  cases s with
  | nil => simp [jsSplit]
  | cons c cs =>
    simp only [jsSplit]
    split
    · simp
    · split <;> simp

theorem jsSplit_no_sep (sep : Char) (s : Str) (h : sep ∉ s) : jsSplit sep s = [s] := by
  induction s with
  | nil => rfl
  | cons c cs ih =>
    have hc : ¬ c = sep := fun hc => h (hc ▸ List.mem_cons_self c cs)
    have hcs : sep ∉ cs := fun hm => h (List.mem_cons_of_mem c hm)
    simp only [jsSplit, if_neg hc, ih hcs]

theorem jsSplit_sep_cons (sep : Char) (xs ys : Str) (h : sep ∉ xs) :
    jsSplit sep (xs ++ sep :: ys) = xs :: jsSplit sep ys := by
  induction xs with
  | nil => simp [jsSplit]
  | cons c xs ih =>
    have hc : ¬ c = sep := fun hc => h (hc ▸ List.mem_cons_self c xs)
    have hxs : sep ∉ xs := fun hm => h (List.mem_cons_of_mem c hm)
    simp only [List.cons_append, jsSplit, if_neg hc, List.append_eq]
    rw [ih hxs]

theorem jsJoin_cons_head (sep : Str) (c : Char) (w : Str) (ws : List Str) :
    jsJoin sep ((c :: w) :: ws) = c :: jsJoin sep (w :: ws) := by
  cases ws with
  | nil => rfl
  | cons w2 ws => simp [jsJoin, List.cons_append]

theorem jsJoin_jsSplit (sep : Char) (s : Str) : jsJoin [sep] (jsSplit sep s) = s := by
  induction s with
  | nil => rfl
  | cons c cs ih =>
    obtain ⟨w, ws, hw⟩ := List.exists_cons_of_ne_nil (jsSplit_ne_nil sep cs)
    by_cases hc : c = sep
    · subst hc
      have hsplit : jsSplit c (c :: cs) = [] :: jsSplit c cs := by
        simp [jsSplit]
      rw [hsplit, hw]
      show [] ++ [c] ++ jsJoin [c] (w :: ws) = c :: cs
      rw [← hw, ih]
      rfl
    · have hsplit : jsSplit sep (c :: cs) = (c :: w) :: ws := by
        simp only [jsSplit, if_neg hc]
        rw [hw]
      rw [hsplit, jsJoin_cons_head]
      rw [← hw, ih]

theorem jsStartsWith_append_self (p y : Str) : jsStartsWith p (p ++ y) = true := by
  induction p with
  | nil => rfl
  | cons c p ih => simp [jsStartsWith, ih]

theorem jsStartsWith_take_append (p a y : Str) (h : jsStartsWith p (a ++ y) = true) :
    jsStartsWith (p.take a.length) a = true := by
  induction p generalizing a with
  | nil => simp [jsStartsWith, List.take]
  | cons c p ih =>
    cases a with
    | nil => rfl
    | cons b a =>
      simp only [List.cons_append, jsStartsWith, Bool.and_eq_true, beq_iff_eq] at h
      simp only [List.length_cons, List.take, jsStartsWith, Bool.and_eq_true, beq_iff_eq]
      exact ⟨h.1, ih a h.2⟩

theorem jsStartsWith_take (p s : Str) (k : Nat) (h : jsStartsWith p s = true) :
    jsStartsWith (p.take k) s = true := by
  induction p generalizing s k with
  | nil => simp [List.take_nil, jsStartsWith]
  | cons c p ih =>
    cases s with
    | nil => exact absurd h (by simp [jsStartsWith])
    | cons b s =>
      cases k with
      | zero => rfl
      | succ k =>
        simp only [jsStartsWith, Bool.and_eq_true, beq_iff_eq] at h
        simp only [List.take, jsStartsWith, Bool.and_eq_true, beq_iff_eq]
        exact ⟨h.1, ih s k h.2⟩

/-! ## Map-set/get lemmas for the nonce table -/

open EncryptedSegmentLoader

theorem find?_pair_cons_pos (a : Str × Str) (l : List (Str × Str)) (k : Str)
    (h : (a.1 == k) = true) : List.find? (fun p => p.1 == k) (a :: l) = some a := by
  simp [List.find?, h]

theorem find?_pair_cons_neg (a : Str × Str) (l : List (Str × Str)) (k : Str)
    (h : (a.1 == k) = false) :
    List.find? (fun p => p.1 == k) (a :: l) = List.find? (fun p => p.1 == k) l := by
  simp [List.find?, h]

theorem find?_map_update_self (m : List (Str × Str)) (k v : Str)
    (hany : (m.any fun p => p.1 == k) = true) :
    List.find? (fun p => p.1 == k) (m.map fun p => if p.1 == k then (k, v) else p) =
      some (k, v) := by
  induction m with
  | nil => simp at hany
  | cons p m ih =>
    by_cases hp : p.1 = k
    · rw [List.map_cons, if_pos (by simpa using hp), find?_pair_cons_pos _ _ _ (by simp)]
    · simp only [List.any_cons, Bool.or_eq_true, beq_iff_eq] at hany
      rcases hany with hc | hc
      · exact absurd hc hp
      · rw [List.map_cons, if_neg (by simpa using hp),
          find?_pair_cons_neg _ _ _ (by simpa using hp)]
        exact ih (List.any_eq_true.mpr (by simpa using hc))

theorem find?_map_update_ne (m : List (Str × Str)) (k k' v : Str) (h : k ≠ k') :
    List.find? (fun p => p.1 == k) (m.map fun p => if p.1 == k' then (k', v) else p) =
      List.find? (fun p => p.1 == k) m := by
  induction m with
  | nil => rfl
  | cons p m ih =>
    by_cases hp : p.1 = k'
    · have h1 : (((k', v) : Str × Str).1 == k) = false := by
        simp only [beq_eq_false_iff_ne]
        exact fun hh => h hh.symm
      have h2 : (p.1 == k) = false := by
        simp only [beq_eq_false_iff_ne, hp]
        exact fun hh => h hh.symm
      rw [List.map_cons, if_pos (by simpa using hp), find?_pair_cons_neg _ _ _ h1,
        find?_pair_cons_neg _ _ _ h2, ih]
    · by_cases hpk : p.1 = k
      · rw [List.map_cons, if_neg (by simpa using hp),
          find?_pair_cons_pos _ _ _ (by simpa using hpk),
          find?_pair_cons_pos _ _ _ (by simpa using hpk)]
      · rw [List.map_cons, if_neg (by simpa using hp),
          find?_pair_cons_neg _ _ _ (by simpa [beq_eq_false_iff_ne] using hpk),
          find?_pair_cons_neg _ _ _ (by simpa [beq_eq_false_iff_ne] using hpk), ih]

theorem mapGet_mapSet_self (m : List (Str × Str)) (k v : Str) :
    mapGet (mapSet m k v) k = some v := by
  rw [mapSet]
  split
  · next hany => rw [mapGet, find?_map_update_self m k v hany]; rfl
  · next hany =>
    have hnone : m.find? (fun p => p.1 == k) = none := by
      rw [List.find?_eq_none]
      intro x hx hxk
      exact hany (List.any_eq_true.mpr ⟨x, hx, hxk⟩)
    rw [mapGet, List.find?_append, hnone]
    simp [List.find?]

theorem mapGet_mapSet_ne (m : List (Str × Str)) (k k' v : Str) (h : k ≠ k') :
    mapGet (mapSet m k' v) k = mapGet m k := by
  rw [mapSet]
  split
  · rw [mapGet, mapGet, find?_map_update_ne m k k' v h]
  · have hone : List.find? (fun p => p.1 == k) [(k', v)] = none := by
      rw [find?_pair_cons_neg _ _ _ (by
        simp only [beq_eq_false_iff_ne]
        exact fun hh => h hh.symm)]
      rfl
    rw [mapGet, mapGet, List.find?_append, hone]
    cases List.find? (fun p => p.1 == k) m <;> rfl

theorem mapGet_noncesFold_of_forall_ne (segs : List EncSegment) :
    ∀ (m : List (Str × Str)) (k : Str), (∀ s ∈ segs, s.encrypted ≠ k) →
      mapGet (noncesFold m segs) k = mapGet m k := by
  induction segs with
  | nil => intro m k _; rfl
  | cons s ss ih =>
    intro m k h
    rw [noncesFold, List.foldl_cons]
    rw [show List.foldl (fun acc u => mapSet acc u.encrypted u.nonce)
        (mapSet m s.encrypted s.nonce) ss = noncesFold (mapSet m s.encrypted s.nonce) ss from rfl]
    rw [ih _ _ (fun t ht => h t (List.mem_cons_of_mem s ht)),
      mapGet_mapSet_ne _ _ _ _ (fun hh => h s (List.mem_cons_self s ss) hh.symm)]

theorem mapGet_noncesFold (segs : List EncSegment) :
    ∀ (m : List (Str × Str)), (segs.map fun s => s.encrypted).Nodup →
      ∀ s ∈ segs, mapGet (noncesFold m segs) s.encrypted = some s.nonce := by
  induction segs with
  | nil => intro m _ s hs; exact absurd hs (List.not_mem_nil s)
  | cons t ss ih =>
    intro m hnd s hs
    rw [noncesFold, List.foldl_cons]
    rw [show List.foldl (fun acc u => mapSet acc u.encrypted u.nonce)
        (mapSet m t.encrypted t.nonce) ss = noncesFold (mapSet m t.encrypted t.nonce) ss from rfl]
    simp only [List.map_cons, List.nodup_cons] at hnd
    rcases List.mem_cons.mp hs with rfl | hmem
    · rw [mapGet_noncesFold_of_forall_ne ss _ _
        (fun u hu he => hnd.1 (by rw [← he]; exact List.mem_map_of_mem _ hu)),
        mapGet_mapSet_self]
    · exact ih (mapSet m t.encrypted t.nonce) hnd.2 s hmem

/-! ## Characters of rendered fragments -/

theorem getD_mem_or_default (l : List Char) (n : Nat) (d : Char) :
    l.getD n d ∈ l ∨ l.getD n d = d := by
  rw [List.getD_eq_get?]
  cases h : l.get? n with
  | none => right; rfl
  | some a => left; simpa using List.get?_mem h

theorem digit_ne_newline (n : Nat) : (str "0123456789").getD n '0' ≠ '\n' := by
  rcases getD_mem_or_default (str "0123456789") n '0' with h | h
  · revert h
    exact fun h => (by decide : ∀ c ∈ str "0123456789", c ≠ '\n') _ h
  · rw [h]
    decide

theorem natToStrGo_chars : ∀ (fuel n : Nat), ∀ c ∈ natToStrGo fuel n, c ≠ '\n' := by
  intro fuel
  induction fuel with
  | zero => intro n c hc; exact absurd hc (List.not_mem_nil c)
  | succ fuel ih =>
    intro n c hc
    rw [natToStrGo] at hc
    by_cases h : n < 10
    · rw [if_pos h] at hc
      rcases List.mem_singleton.mp hc with rfl
      exact digit_ne_newline n
    · rw [if_neg h] at hc
      rcases List.mem_append.mp hc with hc | hc
      · exact ih (n / 10) c hc
      · rcases List.mem_singleton.mp hc with rfl
        exact digit_ne_newline (n % 10)

theorem natToStr_no_newline (n : Nat) : '\n' ∉ natToStr n :=
  fun h => natToStrGo_chars (n + 1) n '\n' h rfl

theorem b64Chr_ne_newline (k : Nat) : b64Chr k ≠ '\n' := by
  rw [b64Chr]
  rcases getD_mem_or_default b64StdChars k '=' with h | h
  · revert h
    exact fun h => (by decide : ∀ c ∈ b64StdChars, c ≠ '\n') _ h
  · rw [h]
    decide

theorem bufToBase64_chars : ∀ (bs : Bytes), ∀ c ∈ bufToBase64 bs, c ≠ '\n' := by
  intro bs
  induction bs using bufToBase64.induct with
  | case1 => intro c hc; exact absurd hc (List.not_mem_nil c)
  | case2 a =>
    intro c hc
    rw [bufToBase64] at hc
    simp only [List.mem_cons, List.not_mem_nil, or_false] at hc
    rcases hc with rfl | rfl | rfl | rfl
    · exact b64Chr_ne_newline _
    · exact b64Chr_ne_newline _
    · decide
    · decide
  | case3 a b =>
    intro c hc
    rw [bufToBase64] at hc
    simp only [List.mem_cons, List.not_mem_nil, or_false] at hc
    rcases hc with rfl | rfl | rfl | rfl
    · exact b64Chr_ne_newline _
    · exact b64Chr_ne_newline _
    · exact b64Chr_ne_newline _
    · decide
  | case4 a b c3 rest ih =>
    intro c hc
    rw [bufToBase64] at hc
    simp only [List.mem_cons] at hc
    rcases hc with rfl | rfl | rfl | rfl | h
    · exact b64Chr_ne_newline _
    · exact b64Chr_ne_newline _
    · exact b64Chr_ne_newline _
    · exact b64Chr_ne_newline _
    · exact ih c h

theorem bufToBase64_no_newline (bs : Bytes) : '\n' ∉ bufToBase64 bs :=
  fun h => bufToBase64_chars bs '\n' h rfl

/-! ## Splitting the rendered manifest into its lines -/

theorem jsSplit_sep_head (sep : Char) (ys : Str) :
    jsSplit sep (sep :: ys) = [] :: jsSplit sep ys := by
  simp [jsSplit]

theorem jsSplit_two_append (a b ys : Str) (ha : '\n' ∉ a) (hb : '\n' ∉ b) :
    jsSplit '\n' (a ++ (b ++ '\n' :: ys)) = (a ++ b) :: jsSplit '\n' ys := by
  rw [← List.append_assoc]
  exact jsSplit_sep_cons '\n' (a ++ b) ys (fun h => by
    rcases List.mem_append.mp h with h | h
    · exact ha h
    · exact hb h)

theorem jsSplit_three_append (a b c ys : Str) (ha : '\n' ∉ a) (hb : '\n' ∉ b)
    (hc : '\n' ∉ c) :
    jsSplit '\n' (a ++ (b ++ (c ++ '\n' :: ys))) = (a ++ b ++ c) :: jsSplit '\n' ys := by
  rw [← List.append_assoc, ← List.append_assoc]
  exact jsSplit_sep_cons '\n' (a ++ b ++ c) ys (fun h => by
    rcases List.mem_append.mp h with h | h
    · rcases List.mem_append.mp h with h | h
      · exact ha h
      · exact hb h
    · exact hc h)

theorem jsSplit_quote_line (a b : Str) (q : Char) (ys : Str) (ha : '\n' ∉ a)
    (hb : '\n' ∉ b) (hq : q ≠ '\n') :
    jsSplit '\n' (a ++ (b ++ q :: '\n' :: ys)) = (a ++ b ++ [q]) :: jsSplit '\n' ys := by
  rw [show (q :: '\n' :: ys : Str) = [q] ++ '\n' :: ys from rfl, ← List.append_assoc,
    ← List.append_assoc]
  exact jsSplit_sep_cons '\n' (a ++ b ++ [q]) ys (fun h => by
    rcases List.mem_append.mp h with h | h
    · rcases List.mem_append.mp h with h | h
      · exact ha h
      · exact hb h
    · rcases List.mem_singleton.mp h with rfl
      exact hq rfl)

theorem extinf_lit_decomp : str ".0,\n#EXT-X-SEGMENT-NONCE:" = str ".0," ++ '\n' :: nonceTag := rfl

theorem nl_lit : str "\n" = ['\n'] := rfl

theorem blocks_split (segs : List EncSegment) (d : Nat)
    (h : ∀ s ∈ segs, '\n' ∉ s.nonce ∧ '\n' ∉ s.encrypted) :
    jsSplit '\n'
      ((segs.map (fun segment => str "#EXTINF:" ++ (natToStr d ++ (str ".0," ++ '\n' ::
        (nonceTag ++ (segment.nonce ++ '\n' :: (segment.encrypted ++ ['\n']))))))).flatten ++
        str "#EXT-X-ENDLIST") =
    (segs.map (fun s =>
      [str "#EXTINF:" ++ natToStr d ++ str ".0,", nonceTag ++ s.nonce, s.encrypted])).flatten ++
      [str "#EXT-X-ENDLIST"] := by
  induction segs with
  | nil =>
    simp only [List.map_nil, List.flatten_nil, List.nil_append]
    exact jsSplit_no_sep '\n' _ (by decide)
  | cons s ss ih =>
    have hs := h s (List.mem_cons_self s ss)
    have hss := fun t ht => h t (List.mem_cons_of_mem s ht)
    simp only [List.map_cons, List.flatten_cons, List.append_assoc, List.cons_append,
      List.singleton_append, List.nil_append]
    rw [jsSplit_three_append (str "#EXTINF:") (natToStr d) (str ".0,") _ (by decide)
      (natToStr_no_newline d) (by decide)]
    rw [jsSplit_two_append nonceTag s.nonce _ (by decide) hs.1]
    rw [jsSplit_sep_cons '\n' s.encrypted _ hs.2]
    rw [ih hss]
    simp only [List.append_assoc]

theorem render_lines (segs : List EncSegment) (key : Bytes) (d : Nat)
    (h : ∀ s ∈ segs, '\n' ∉ s.nonce ∧ '\n' ∉ s.encrypted) :
    jsSplit '\n' (generateCustomM3U8 segs key d) = renderLines segs key d := by
  have e1 : str "#EXTM3U\n#EXT-X-VERSION:3\n#EXT-X-TARGETDURATION:" =
      str "#EXTM3U" ++ '\n' :: (str "#EXT-X-VERSION:3" ++ '\n' :: str "#EXT-X-TARGETDURATION:") :=
    rfl
  have e2 : str "\n#EXT-X-MEDIA-SEQUENCE:0\n#EXT-X-PLAYLIST-TYPE:VOD\n\n#EXT-X-CUSTOM-KEY:METHOD=CHACHA20-POLY1305,URI=\"data:text/plain;base64," =
      '\n' :: (str "#EXT-X-MEDIA-SEQUENCE:0" ++ '\n' :: (str "#EXT-X-PLAYLIST-TYPE:VOD" ++
        '\n' :: '\n' :: str "#EXT-X-CUSTOM-KEY:METHOD=CHACHA20-POLY1305,URI=\"data:text/plain;base64,")) :=
    rfl
  have e3 : str "\"\n\n" = '"' :: '\n' :: '\n' :: [] := rfl
  rw [generateCustomM3U8, e1, e2, e3]
  simp only [extinf_lit_decomp, nl_lit, List.append_assoc, List.cons_append,
    List.singleton_append, List.nil_append]
  rw [jsSplit_sep_cons '\n' (str "#EXTM3U") _ (by decide)]
  rw [jsSplit_sep_cons '\n' (str "#EXT-X-VERSION:3") _ (by decide)]
  rw [jsSplit_two_append (str "#EXT-X-TARGETDURATION:") (natToStr d) _ (by decide)
    (natToStr_no_newline d)]
  rw [jsSplit_sep_cons '\n' (str "#EXT-X-MEDIA-SEQUENCE:0") _ (by decide)]
  rw [jsSplit_sep_cons '\n' (str "#EXT-X-PLAYLIST-TYPE:VOD") _ (by decide)]
  rw [jsSplit_sep_head]
  rw [jsSplit_quote_line
    (str "#EXT-X-CUSTOM-KEY:METHOD=CHACHA20-POLY1305,URI=\"data:text/plain;base64,")
    (bufToBase64 key) '"' _ (by decide) (bufToBase64_no_newline key) (by decide)]
  rw [jsSplit_sep_head]
  rw [blocks_split segs d h]
  rw [renderLines]
  rfl

/-! ## Running the nonce parser over rendered lines -/

theorem jsStartsWith_append_eq_false (p a y : Str)
    (ha : jsStartsWith (p.take a.length) a = false) : jsStartsWith p (a ++ y) = false := by
  cases hc : jsStartsWith p (a ++ y)
  · rfl
  · rw [jsStartsWith_take_append p a y hc] at ha
    exact absurd ha (by simp)

theorem not_tag_of_not_hash (p name : Str) (hp : p.take 1 = str "#")
    (h : jsStartsWith (str "#") name = false) : jsStartsWith p name = false := by
  cases hc : jsStartsWith p name
  · rfl
  · have ht := jsStartsWith_take p name 1 hc
    rw [hp] at ht
    rw [ht] at h
    exact absurd h (by simp)

theorem parseNoncesLoop_skip (l : Str) (ls : List Str) (m : List (Str × Str))
    (hl : jsStartsWith nonceTag l = false) :
    parseNoncesLoop (l :: ls) m = parseNoncesLoop ls m := by
  simp [parseNoncesLoop, hl]

theorem nonce_extract (n : Str) (h : ':' ∉ n) :
    (jsSplit ':' (nonceTag ++ n)).getD 1 [] = n := by
  have e : nonceTag ++ n = str "#EXT-X-SEGMENT-NONCE" ++ ':' :: n := rfl
  rw [e, jsSplit_sep_cons ':' _ _ (by decide), jsSplit_no_sep ':' n h]
  rfl

theorem parseNoncesLoop_directive (x name : Str) (rest : List Str) (m : List (Str × Str))
    (hname1 : jsStartsWith (str "#") name = false) (hname2 : jsTrim name = name)
    (hname3 : name ≠ []) :
    parseNoncesLoop ((nonceTag ++ x) :: name :: rest) m =
      parseNoncesLoop (name :: rest)
        (mapSet m name ((jsSplit ':' (nonceTag ++ x)).getD 1 [])) := by
  have htrim : jsTrim name ≠ [] := by rw [hname2]; exact hname3
  simp [parseNoncesLoop, jsStartsWith_append_self, nextSegmentLine, hname1, hname2, htrim,
    hname3]

theorem parseNoncesLoop_blocks (d : Nat) (segs : List EncSegment)
    (h : ∀ s ∈ segs, jsTrim s.encrypted = s.encrypted ∧ s.encrypted ≠ [] ∧
      jsStartsWith (str "#") s.encrypted = false ∧ ':' ∉ s.nonce) :
    ∀ m, parseNoncesLoop
        ((segs.map (fun s =>
          [str "#EXTINF:" ++ (natToStr d ++ str ".0,"), nonceTag ++ s.nonce,
            s.encrypted])).flatten ++ [str "#EXT-X-ENDLIST"]) m = noncesFold m segs := by
  induction segs with
  | nil =>
    intro m
    simp only [List.map_nil, List.flatten_nil, List.nil_append]
    rw [parseNoncesLoop_skip _ _ _ (by decide)]
    rfl
  | cons s ss ih =>
    intro m
    obtain ⟨h1, h2, h3, h4⟩ := h s (List.mem_cons_self s ss)
    have hss := fun t ht => h t (List.mem_cons_of_mem s ht)
    simp only [List.map_cons, List.flatten_cons, List.cons_append, List.append_assoc,
      List.nil_append]
    rw [parseNoncesLoop_skip _ _ _
      (jsStartsWith_append_eq_false nonceTag (str "#EXTINF:") _ (by decide))]
    rw [parseNoncesLoop_directive s.nonce s.encrypted _ m h3 h1 h2]
    rw [parseNoncesLoop_skip _ _ _ (not_tag_of_not_hash nonceTag s.encrypted (by decide) h3)]
    rw [nonce_extract s.nonce h4, ih hss]
    rfl

/-- The loader's nonce table for a rendered manifest is exactly the in-order
fold of `Map.set` over the segment list. -/
theorem parseSegmentNonces_render (segs : List EncSegment) (key : Bytes) (d : Nat)
    (h : ∀ s ∈ segs, jsTrim s.encrypted = s.encrypted ∧ s.encrypted ≠ [] ∧
      jsStartsWith (str "#") s.encrypted = false ∧ '\n' ∉ s.encrypted ∧
      '\n' ∉ s.nonce ∧ ':' ∉ s.nonce) :
    parseSegmentNonces (generateCustomM3U8 segs key d) = noncesFold [] segs := by
  rw [parseSegmentNonces,
    render_lines segs key d (fun s hs => ⟨(h s hs).2.2.2.2.1, (h s hs).2.2.2.1⟩),
    renderLines]
  simp only [List.append_assoc]
  rw [parseNoncesLoop_skip _ _ _ (by decide)]
  rw [parseNoncesLoop_skip _ _ _ (by decide)]
  rw [parseNoncesLoop_skip _ _ _
    (jsStartsWith_append_eq_false nonceTag (str "#EXT-X-TARGETDURATION:") _ (by decide))]
  rw [parseNoncesLoop_skip _ _ _ (by decide)]
  rw [parseNoncesLoop_skip _ _ _ (by decide)]
  rw [parseNoncesLoop_skip _ _ _ (by decide)]
  rw [parseNoncesLoop_skip _ _ _
    (jsStartsWith_append_eq_false nonceTag
      (str "#EXT-X-CUSTOM-KEY:METHOD=CHACHA20-POLY1305,URI=\"data:text/plain;base64,") _
      (by decide))]
  rw [parseNoncesLoop_skip _ _ _ (by decide)]
  exact parseNoncesLoop_blocks d segs
    (fun s hs => ⟨(h s hs).1, (h s hs).2.1, (h s hs).2.2.1, (h s hs).2.2.2.2.2⟩) []

/-- C3 counterexample: for a segment whose reference contains a path
separator, the table is keyed by the full reference `a/b.enc`, not by the
basename `b.enc` — the claim as stated fails at this input. -/
theorem C3_basename_counterexample :
    mapGet (parseSegmentNonces
        (generateCustomM3U8 [⟨str "a/b.enc", str "QUJD"⟩] [] 10)) (str "b.enc") = none ∧
    mapGet (parseSegmentNonces
        (generateCustomM3U8 [⟨str "a/b.enc", str "QUJD"⟩] [] 10)) (str "a/b.enc") =
      some (str "QUJD") := by
  constructor
  · decide
  · decide

/-- C3 (amended): manifest round trip for bare references — for every
non-empty segment list whose references are trimmed, nonblank, non-comment
bare filenames (no `/`, hence each reference is its own basename) and whose
nonces are base64-like strings (no newline, no colon), with pairwise
distinct references, parsing the rendered manifest yields a table mapping
each reference to exactly the nonce supplied at render time. -/
theorem C3_manifest_roundtrip (segs : List EncSegment) (key : Bytes) (d : Nat)
    (h : ∀ s ∈ segs, jsTrim s.encrypted = s.encrypted ∧ s.encrypted ≠ [] ∧
      jsStartsWith (str "#") s.encrypted = false ∧ '\n' ∉ s.encrypted ∧
      '/' ∉ s.encrypted ∧ '\n' ∉ s.nonce ∧ ':' ∉ s.nonce)
    (hnd : (segs.map fun s => s.encrypted).Nodup) :
    ∀ s ∈ segs,
      mapGet (parseSegmentNonces (generateCustomM3U8 segs key d)) s.encrypted =
        some s.nonce := by
  intro s hs
  rw [parseSegmentNonces_render segs key d (fun t ht =>
    ⟨(h t ht).1, (h t ht).2.1, (h t ht).2.2.1, (h t ht).2.2.2.1,
      (h t ht).2.2.2.2.2.1, (h t ht).2.2.2.2.2.2⟩)]
  exact mapGet_noncesFold segs [] hnd s hs

/-- Witness for C3 (amended) on a concrete two-segment render. -/
theorem C3_manifest_roundtrip_witness :
    mapGet (parseSegmentNonces (generateCustomM3U8
        [⟨str "seg000.enc", str "QUJD"⟩, ⟨str "seg001.enc", str "REVG"⟩]
        (List.range 32) 10)) (str "seg000.enc") = some (str "QUJD") :=
  C3_manifest_roundtrip
    [⟨str "seg000.enc", str "QUJD"⟩, ⟨str "seg001.enc", str "REVG"⟩]
    (List.range 32) 10 (by decide) (by decide)
    ⟨str "seg000.enc", str "QUJD"⟩ (by decide)

/-! ## Blank-suffix lemmas for the trailing-directive behaviour -/

theorem jsTrim_eq_nil_of_all_ws (l : Str) (h : l.all isJsWs = true) : jsTrim l = [] := by
  rw [jsTrim]
  have h1 : l.dropWhile isJsWs = [] :=
    List.dropWhile_eq_nil_iff.mpr (fun x hx => List.all_eq_true.mp h x hx)
  rw [h1]
  rfl

theorem nonceTag_not_on_blank (l : Str) (h : l.all isJsWs = true) :
    jsStartsWith nonceTag l = false := by
  cases l with
  | nil => decide
  | cons c cs =>
    simp only [List.all_cons, Bool.and_eq_true] at h
    have hc : ('#' == c) = false := by
      rcases h with ⟨h1, _⟩
      rw [beq_eq_false_iff_ne]
      intro hh
      rw [← hh] at h1
      exact absurd h1 (by decide)
    rw [show nonceTag = '#' :: str "EXT-X-SEGMENT-NONCE:" from rfl]
    simp [jsStartsWith, hc]

theorem hash_on_directive (n : Str) : jsStartsWith (str "#") (nonceTag ++ n) = true := by
  rw [show nonceTag ++ n = '#' :: (str "EXT-X-SEGMENT-NONCE:" ++ n) from rfl,
    show str "#" = ['#'] from rfl]
  simp [jsStartsWith]

theorem nextSegmentLine_blank (ls : List Str) (h : ∀ l ∈ ls, l.all isJsWs = true) :
    nextSegmentLine ls = none := by
  induction ls with
  | nil => rfl
  | cons l ls ih =>
    rw [nextSegmentLine, if_neg (fun hc =>
      hc.2 (jsTrim_eq_nil_of_all_ws l (h l (List.mem_cons_self l ls))))]
    exact ih (fun t ht => h t (List.mem_cons_of_mem l ht))

theorem parseNoncesLoop_blank (ls : List Str) (h : ∀ l ∈ ls, l.all isJsWs = true)
    (m : List (Str × Str)) : parseNoncesLoop ls m = m := by
  induction ls generalizing m with
  | nil => rfl
  | cons l ls ih =>
    rw [parseNoncesLoop_skip _ _ _ (nonceTag_not_on_blank l (h l (List.mem_cons_self l ls)))]
    exact ih (fun t ht => h t (List.mem_cons_of_mem l ht)) m

theorem parseNoncesLoop_directive_none (x : Str) (rest : List Str) (m : List (Str × Str))
    (h : nextSegmentLine rest = none) :
    parseNoncesLoop ((nonceTag ++ x) :: rest) m = parseNoncesLoop rest m := by
  simp [parseNoncesLoop, jsStartsWith_append_self, h]

theorem nextSegmentLine_append_blank (xs : List Str) (n : Str) (suffix : List Str)
    (hsuf : ∀ l ∈ suffix, l.all isJsWs = true) :
    nextSegmentLine (xs ++ (nonceTag ++ n) :: suffix) = nextSegmentLine xs := by
  induction xs with
  | nil =>
    rw [List.nil_append]
    have hc : ¬ (jsStartsWith (str "#") (nonceTag ++ n) = false ∧
        jsTrim (nonceTag ++ n) ≠ []) := by
      intro hcc
      rw [hash_on_directive n] at hcc
      exact absurd hcc.1 (by simp)
    simp only [nextSegmentLine, if_neg hc]
    exact nextSegmentLine_blank suffix hsuf
  | cons x xs ih =>
    rw [List.cons_append]
    by_cases hc : jsStartsWith (str "#") x = false ∧ jsTrim x ≠ []
    · simp only [nextSegmentLine, if_pos hc]
    · simp only [nextSegmentLine, if_neg hc]
      exact ih

/-- C6 (amended): a nonce directive that is the last non-blank line is
silently ignored — parsing succeeds (the parser cannot fail) and the
resulting table is exactly the table of the manifest without that
directive; no error of any kind is raised. -/
theorem C6_trailing_nonce_ignored (pre : List Str) (n : Str) (suffix : List Str)
    (m : List (Str × Str)) (hsuf : ∀ l ∈ suffix, l.all isJsWs = true) :
    parseNoncesLoop (pre ++ (nonceTag ++ n) :: suffix) m = parseNoncesLoop pre m := by
  induction pre generalizing m with
  | nil =>
    rw [List.nil_append,
      parseNoncesLoop_directive_none n suffix m (nextSegmentLine_blank suffix hsuf),
      parseNoncesLoop_blank suffix hsuf m]
    rfl
  | cons l pre ih =>
    by_cases hl : jsStartsWith nonceTag l = true
    · rw [List.cons_append, parseNoncesLoop, parseNoncesLoop]
      rw [if_pos hl, if_pos hl, nextSegmentLine_append_blank pre n suffix hsuf]
      cases hres : nextSegmentLine pre with
      | none => exact ih m
      | some seg => exact ih _
    · have hl' : jsStartsWith nonceTag l = false := by
        cases hb : jsStartsWith nonceTag l
        · rfl
        · exact absurd hb hl
      rw [List.cons_append, parseNoncesLoop_skip _ _ _ hl', parseNoncesLoop_skip _ _ _ hl',
        ih]

/-- C6 counterexample: on a manifest whose nonce directive is the last
non-blank line, `parseSegmentNonces` succeeds and returns the empty table —
it does not fail with any error. -/
theorem C6_trailing_nonce_counterexample :
    parseSegmentNonces (str "#EXTM3U\n#EXT-X-SEGMENT-NONCE:QUJD") = [] := by
  decide

/-- Witness for C6 (amended) at a concrete manifest line list. -/
theorem C6_trailing_nonce_ignored_witness :
    parseNoncesLoop ([str "#EXTM3U"] ++ (nonceTag ++ str "QUJD") :: [[]]) [] =
      parseNoncesLoop [str "#EXTM3U"] [] :=
  C6_trailing_nonce_ignored [str "#EXTM3U"] (str "QUJD") [[]] [] (by decide)

/-! ## Where the table keys come from -/

theorem nextSegmentLine_spec (ls : List Str) (t : Str) (h : nextSegmentLine ls = some t) :
    t ≠ [] ∧ ∃ l ∈ ls, jsStartsWith (str "#") l = false ∧ jsTrim l = t := by
  induction ls with
  | nil => exact absurd h (by simp [nextSegmentLine])
  | cons l ls ih =>
    by_cases hc : jsStartsWith (str "#") l = false ∧ jsTrim l ≠ []
    · simp only [nextSegmentLine, if_pos hc, Option.some.injEq] at h
      subst h
      exact ⟨hc.2, l, List.mem_cons_self l ls, hc.1, rfl⟩
    · simp only [nextSegmentLine, if_neg hc] at h
      obtain ⟨ht, l', hl', hp, he⟩ := ih h
      exact ⟨ht, l', List.mem_cons_of_mem l hl', hp, he⟩

theorem mem_mapSet (m : List (Str × Str)) (k v : Str) (kv : Str × Str)
    (h : kv ∈ mapSet m k v) : kv ∈ m ∨ kv.1 = k := by
  rw [mapSet] at h
  split at h
  · rcases List.mem_map.mp h with ⟨p, hp, he⟩
    by_cases hpk : p.1 == k
    · rw [if_pos hpk] at he
      right
      rw [← he]
    · rw [if_neg hpk] at he
      left
      rw [← he]
      exact hp
  · rcases List.mem_append.mp h with h | h
    · exact Or.inl h
    · right
      rcases List.mem_singleton.mp h with rfl
      rfl

theorem parseNoncesLoop_keys (ls : List Str) :
    ∀ (m : List (Str × Str)) (kv : Str × Str), kv ∈ parseNoncesLoop ls m →
      kv ∈ m ∨ (kv.1 ≠ [] ∧ ∃ l ∈ ls, jsStartsWith (str "#") l = false ∧ jsTrim l = kv.1) := by
  induction ls with
  | nil => intro m kv h; exact Or.inl h
  | cons l ls ih =>
    intro m kv h
    by_cases hd : jsStartsWith nonceTag l = true
    · cases hseg : nextSegmentLine ls with
      | some seg =>
        simp only [parseNoncesLoop, hd, if_true, hseg] at h
        rcases ih _ kv h with hm | ⟨hne, l', hl', hp, he⟩
        · rcases mem_mapSet _ _ _ kv hm with hm | hk
          · exact Or.inl hm
          · obtain ⟨hne, l', hl', hp, he⟩ := nextSegmentLine_spec ls seg hseg
            exact Or.inr ⟨hk ▸ hne, l', List.mem_cons_of_mem l hl', hp, hk ▸ he⟩
        · exact Or.inr ⟨hne, l', List.mem_cons_of_mem l hl', hp, he⟩
      | none =>
        simp only [parseNoncesLoop, hd, if_true, hseg] at h
        rcases ih _ kv h with hm | ⟨hne, l', hl', hp, he⟩
        · exact Or.inl hm
        · exact Or.inr ⟨hne, l', List.mem_cons_of_mem l hl', hp, he⟩
    · have hd' : jsStartsWith nonceTag l = false := by
        cases hb : jsStartsWith nonceTag l
        · rfl
        · exact absurd hb hd
      rw [parseNoncesLoop_skip _ _ _ hd'] at h
      rcases ih _ kv h with hm | ⟨hne, l', hl', hp, he⟩
      · exact Or.inl hm
      · exact Or.inr ⟨hne, l', List.mem_cons_of_mem l hl', hp, he⟩

/-- C7 (amended): every key of the nonce table is the trimmed text of a
full non-comment line of the manifest — the whole segment reference as
written, not its basename; only for a bare reference (one with no `/`)
does the key coincide with the basename the loader later looks up. -/
theorem C7_keys_are_references (content : Str) (kv : Str × Str)
    (h : kv ∈ parseSegmentNonces content) :
    (kv.1 ≠ [] ∧ ∃ l ∈ jsSplit '\n' content,
      jsStartsWith (str "#") l = false ∧ jsTrim l = kv.1) ∧
    (∀ k : Str, '/' ∉ k → jsLast (jsSplit '/' k) = k) := by
  constructor
  · rcases parseNoncesLoop_keys (jsSplit '\n' content) [] kv h with hm | hgood
    · exact absurd hm (List.not_mem_nil kv)
    · exact hgood
  · intro k hk
    rw [jsSplit_no_sep '/' k hk]
    rfl

/-- Witness for C7 (amended) at a concrete manifest. -/
theorem C7_keys_are_references_witness :
    ((str "seg.enc", str "QUJD") ∈
      parseSegmentNonces (str "#EXT-X-SEGMENT-NONCE:QUJD\nseg.enc")) ∧
    ((str "seg.enc", str "QUJD").1 ≠ [] ∧
      ∃ l ∈ jsSplit '\n' (str "#EXT-X-SEGMENT-NONCE:QUJD\nseg.enc"),
        jsStartsWith (str "#") l = false ∧ jsTrim l = (str "seg.enc", str "QUJD").1) :=
  ⟨by decide,
    (C7_keys_are_references (str "#EXT-X-SEGMENT-NONCE:QUJD\nseg.enc")
      (str "seg.enc", str "QUJD") (by decide)).1⟩

/-- C7 counterexample: for a reference containing path separators the key
is the full reference `/abs/path/seg1.enc`; a lookup by the basename
`seg1.enc` fails. -/
theorem C7_basename_counterexample :
    mapGet (parseSegmentNonces (str "#EXT-X-SEGMENT-NONCE:QUJD\n/abs/path/seg1.enc"))
      (str "seg1.enc") = none ∧
    mapGet (parseSegmentNonces (str "#EXT-X-SEGMENT-NONCE:QUJD\n/abs/path/seg1.enc"))
      (str "/abs/path/seg1.enc") = some (str "QUJD") := by
  constructor
  · decide
  · decide

/-! ## Cleaning behaviour -/

theorem cleanLines_filter (proto host : Str) (ls : List Str)
    (h : ∀ l ∈ ls, jsTrim l = l ∧ l ≠ []) :
    cleanLines none proto host ls =
      ls.filter (fun l => !(jsStartsWith customKeyTag l || jsStartsWith nonceTag l)) := by
  induction ls with
  | nil => rfl
  | cons l ls ih =>
    obtain ⟨h1, h2⟩ := h l (List.mem_cons_self l ls)
    have hrest := fun t ht => h t (List.mem_cons_of_mem l ht)
    cases hd : (jsStartsWith customKeyTag l || jsStartsWith nonceTag l) with
    | true =>
      have : processLine none proto host l = none := by
        rw [processLine]
        simp only [h1, if_neg h2]
        rw [if_pos hd]
      simp only [cleanLines, this, List.filter_cons, hd]
      exact ih hrest
    | false =>
      have : processLine none proto host l = some l := by
        rw [processLine]
        simp only [h1, if_neg h2]
        rw [if_neg (by rw [hd]; simp)]
      simp only [cleanLines, this, List.filter_cons, hd]
      rw [ih hrest]
      rfl

/-- C8 (amended): for a manifest whose lines are already trimmed and
non-blank (and with no base URL, so the blob-rewrite never applies), the
cleaned manifest is the original with all and only the two proprietary
directive lines removed; in particular, with no proprietary directive
present the output is identical to the input. In general the cleaner also
trims lines and drops blank lines, so byte-identity fails otherwise. -/
theorem C8_clean_strips_directives (content proto host : Str)
    (h : ∀ l ∈ jsSplit '\n' content, jsTrim l = l ∧ l ≠ []) :
    cleanM3U8ForHls content none proto host =
      jsJoin (str "\n") ((jsSplit '\n' content).filter
        (fun l => !(jsStartsWith customKeyTag l || jsStartsWith nonceTag l))) ∧
    ((∀ l ∈ jsSplit '\n' content,
        jsStartsWith customKeyTag l = false ∧ jsStartsWith nonceTag l = false) →
      cleanM3U8ForHls content none proto host = content) := by
  constructor
  · rw [cleanM3U8ForHls, cleanLines_filter proto host _ h]
  · intro hnod
    rw [cleanM3U8ForHls, cleanLines_filter proto host _ h]
    have hfil : (jsSplit '\n' content).filter
        (fun l => !(jsStartsWith customKeyTag l || jsStartsWith nonceTag l)) =
        jsSplit '\n' content := by
      apply List.filter_eq_self.mpr
      intro l hl
      rw [(hnod l hl).1, (hnod l hl).2]
      rfl
    rw [hfil, nl_lit, jsJoin_jsSplit]

/-- Witness for C8 (amended): a trimmed, nonblank manifest with no
proprietary directives passes through unchanged. -/
theorem C8_clean_strips_directives_witness :
    cleanM3U8ForHls (str "#EXTM3U\nsegment0.ts") none (str "http:") (str "localhost:3000") =
      str "#EXTM3U\nsegment0.ts" :=
  (C8_clean_strips_directives (str "#EXTM3U\nsegment0.ts") (str "http:")
    (str "localhost:3000") (by decide)).2 (by decide)

/-- C8 counterexample: a manifest with a blank line and no proprietary
directives is not returned identically — the blank line is dropped. -/
theorem C8_blank_line_counterexample :
    cleanM3U8ForHls (str "#EXTM3U\n\nx.ts") none (str "http:") (str "localhost:3000") ≠
      str "#EXTM3U\n\nx.ts" := by
  decide

/-- C10: under a `blob:` base URL, a trimmed nonblank non-comment line
ending in `.enc` that starts with neither `http` nor `/` is rewritten to
`<protocol>//<host>/output/my-encrypted-video/<filename>` with the asset
path component fixed; all other lines around it are processed normally. -/
theorem C10_blob_rewrite (pre post : List Str) (l baseUrl proto host : Str)
    (h1 : jsTrim l = l) (h2 : l ≠ []) (h3 : jsStartsWith (str "#") l = false)
    (h4 : jsEndsWith (str ".enc") l = true)
    (h5 : jsStartsWith (str "blob:") baseUrl = true)
    (h6 : jsStartsWith (str "http") l = false) (h7 : jsStartsWith (str "/") l = false) :
    cleanLines (some baseUrl) proto host (pre ++ l :: post) =
      cleanLines (some baseUrl) proto host pre ++
        (proto ++ str "//" ++ host ++ str "/output/my-encrypted-video/" ++ l) ::
        cleanLines (some baseUrl) proto host post := by
  have hkey : jsStartsWith customKeyTag l = false :=
    not_tag_of_not_hash customKeyTag l (by decide) h3
  have htag : jsStartsWith nonceTag l = false :=
    not_tag_of_not_hash nonceTag l (by decide) h3
  have hproc : processLine (some baseUrl) proto host l =
      some (proto ++ str "//" ++ host ++ str "/output/my-encrypted-video/" ++ l) := by
    rw [processLine]
    simp only [h1, if_neg h2]
    rw [if_neg (by rw [hkey, htag]; simp)]
    rw [if_pos ⟨h3, h4, h5, h6, h7⟩]
  induction pre with
  | nil =>
    rw [List.nil_append]
    simp only [cleanLines, hproc, List.nil_append]
  | cons x pre ih =>
    rw [List.cons_append]
    cases hp : processLine (some baseUrl) proto host x with
    | none => simp only [cleanLines, hp, ih]
    | some out => simp only [cleanLines, hp, ih, List.cons_append]

/-- Witness for C10 at a concrete manifest and blob base URL. -/
theorem C10_blob_rewrite_witness :
    cleanLines (some (str "blob:http://app/x")) (str "http:") (str "localhost:3000")
      ([str "#EXTM3U"] ++ str "seg000.enc" :: []) =
      cleanLines (some (str "blob:http://app/x")) (str "http:") (str "localhost:3000")
        [str "#EXTM3U"] ++
        (str "http:" ++ str "//" ++ str "localhost:3000" ++
          str "/output/my-encrypted-video/" ++ str "seg000.enc") ::
        cleanLines (some (str "blob:http://app/x")) (str "http:") (str "localhost:3000") [] :=
  C10_blob_rewrite [str "#EXTM3U"] [] (str "seg000.enc") (str "blob:http://app/x")
    (str "http:") (str "localhost:3000") (by decide) (by decide) (by decide) (by decide)
    (by decide) (by decide) (by decide)

/-- C4 (amended): on a status-200 text response, the loader invokes the
success callback with the original body unmodified whenever
`parseEncryptionKey` throws — for the missing-key error and equally for
every other parse failure (e.g. a malformed base64 key payload); the
indiscriminate `catch` around the manifest parse means no parse failure
ever reaches the error callback, and the shared state is left untouched. -/
theorem C4_parse_error_passthrough (proto host : Str) (st : EncryptionState)
    (url stText text : Str) (e : ParseKeyErr)
    (h : parseEncryptionKey text = .error e) :
    load proto host st url ⟨200, stText, .txt text⟩ =
      (st, .onSuccess url (.txt text)) := by
  rw [load]
  simp only [h]
  rfl

/-- Witness for C4 (amended) at a manifest whose key payload `!!!!` fails
both base64 decoders. -/
theorem C4_parse_error_passthrough_witness :
    load (str "http:") (str "localhost:3000") ⟨none, []⟩ (str "blob:http://app/x")
      ⟨200, str "OK",
        .txt (str "#EXT-X-CUSTOM-KEY:METHOD=CHACHA20-POLY1305,URI=\"data:text/plain;base64,!!!!\"")⟩ =
      (⟨none, []⟩, .onSuccess (str "blob:http://app/x")
        (.txt (str "#EXT-X-CUSTOM-KEY:METHOD=CHACHA20-POLY1305,URI=\"data:text/plain;base64,!!!!\""))) :=
  C4_parse_error_passthrough (str "http:") (str "localhost:3000") ⟨none, []⟩
    (str "blob:http://app/x") (str "OK")
    (str "#EXT-X-CUSTOM-KEY:METHOD=CHACHA20-POLY1305,URI=\"data:text/plain;base64,!!!!\"")
    .invalidB64 (by rfl)

/-- C4 counterexample: a manifest whose key directive carries the malformed
base64 payload `!!!!` is passed through to the success callback unchanged —
the error callback is not invoked, contradicting the claim that parse
failures other than a missing key fail the fetch. -/
theorem C4_malformed_key_counterexample :
    (load (str "http:") (str "localhost:3000") ⟨none, []⟩ (str "blob:http://app/x")
      ⟨200, str "OK",
        .txt (str "#EXTM3U\n#EXT-X-CUSTOM-KEY:METHOD=CHACHA20-POLY1305,URI=\"data:text/plain;base64,!!!!\"\nseg000.enc")⟩).2 =
      .onSuccess (str "blob:http://app/x")
        (.txt (str "#EXTM3U\n#EXT-X-CUSTOM-KEY:METHOD=CHACHA20-POLY1305,URI=\"data:text/plain;base64,!!!!\"\nseg000.enc")) := by
  decide
